import Mathlib

/-!
Verification of the JSON structural-diff routine of digests-api.

The repository consists of two inspection scripts.  The comparison core is
the function compare_objects in src/compare_responses.py, together with its
helper compare_field_types; the structure summarizer in
src/analyze_api_response.py contributes the 50-character sample-preview
expression.  This file embeds those routines shallowly and proves the
specified properties about them.
-/

/-- JsonValue models a Python value produced by json.load: None, bool, int,
float, str, list, and dict.  Python keeps int and float as distinct runtime
types, and bool as a type of its own, so the model keeps them separate too.
Float payloads are modelled exactly as rational numbers; no claim in this
development depends on floating-point rounding.  A dict is modelled as its
association list in insertion order (Python dicts preserve insertion order
and have unique keys). -/
inductive JsonValue where
  | null : JsonValue
  | bool (b : Bool) : JsonValue
  | int (n : Int) : JsonValue
  | float (q : Rat) : JsonValue
  | str (s : String) : JsonValue
  | list (items : List JsonValue) : JsonValue
  | dict (fields : List (String × JsonValue)) : JsonValue

/-- Python type(x).__name__ for each runtime type a parsed JSON value can
carry.  This is the value compared by compare_field_types in the source. -/
def typeName : JsonValue → String
  | JsonValue.null => "NoneType"
  | JsonValue.bool _ => "bool"
  | JsonValue.int _ => "int"
  | JsonValue.float _ => "float"
  | JsonValue.str _ => "str"
  | JsonValue.list _ => "list"
  | JsonValue.dict _ => "dict"

/-- Python isinstance(x, dict). -/
def isDict : JsonValue → Bool
  | JsonValue.dict _ => true
  | _ => false

/-- Python isinstance(x, list). -/
def isList : JsonValue → Bool
  | JsonValue.list _ => true
  | _ => false

/-- A value that is neither a dict nor a list (a scalar leaf). -/
def isScalar (v : JsonValue) : Bool :=
  !(isDict v) && !(isList v)

/-- pyEq models the Python equality test val1 == val2 as structural equality.
The source only reaches its value comparison after the runtime type names have
been found equal, so cross-type numeric equality (Python treats 1 == 1.0 as
true) is never exercised there; on two values of the same runtime type Python
equality of parsed JSON data is structural. -/
def pyEq (a b : JsonValue) : Bool :=
  match a, b with
  | JsonValue.null, JsonValue.null => true
  | JsonValue.bool x, JsonValue.bool y => x == y
  | JsonValue.int x, JsonValue.int y => x == y
  | JsonValue.float x, JsonValue.float y => x == y
  | JsonValue.str x, JsonValue.str y => x == y
  | JsonValue.list [], JsonValue.list [] => true
  | JsonValue.list (x :: xs), JsonValue.list (y :: ys) =>
      pyEq x y && pyEq (JsonValue.list xs) (JsonValue.list ys)
  | JsonValue.dict [], JsonValue.dict [] => true
  | JsonValue.dict ((k1, v1) :: xs), JsonValue.dict ((k2, v2) :: ys) =>
      k1 == k2 && pyEq v1 v2 && pyEq (JsonValue.dict xs) (JsonValue.dict ys)
  | _, _ => false
termination_by sizeOf a
decreasing_by
  all_goals
    simp only [JsonValue.list.sizeOf_spec, JsonValue.dict.sizeOf_spec,
      List.cons.sizeOf_spec, Prod.mk.sizeOf_spec]
  all_goals omega

/-- Lookup of a key in a dict modelled as an association list; this is the
Python subscript obj[key] restricted to present keys. -/
def lookupField : List (String × JsonValue) → String → Option JsonValue
  | [], _ => none
  | (k, v) :: rest, key => if k = key then some v else lookupField rest key

/-- Python set(obj.keys()) if isinstance(obj, dict) else set(): the keys an
input contributes, in insertion order for a dict and empty otherwise. -/
def pyKeys : JsonValue → List String
  | JsonValue.dict fields => fields.map Prod.fst
  | _ => []

/-- Path extension in the source: new_path is path.key when path is nonempty
and just key when path is the empty string. -/
def pathJoin (path key : String) : String :=
  if path = "" then key else path ++ "." ++ key

/-- Python sorted() on a collection of strings: lexicographic insertion
sort. -/
def pySorted (l : List String) : List String :=
  List.insertionSort (fun a b => a ≤ b) l

/-- The common keys iterated by the loop for key in keys1 and keys2.  Python
iterates the set intersection in an unspecified hash order; the model fixes
the deterministic representative enumeration given by the left dict in
insertion order, restricted to keys also present on the right. -/
def commonKeys (f1 f2 : List (String × JsonValue)) : List String :=
  (f1.map Prod.fst).filter (fun k => decide (k ∈ f2.map Prod.fst))

/-- Configuration of the comparison.  The source hard-codes both lists in
compare_objects; the definitions below take them as a parameter, and
default_config is exactly the hard-coded pair. -/
structure ComparisonConfig where
  ignoredKeys : List String
  valueExemptKeys : List String

/-- The two key lists hard-coded in compare_objects. -/
def default_config : ComparisonConfig :=
  { ignoredKeys := ["lastRefreshed", "lastUpdated", "published", "created"],
    valueExemptKeys := ["guid", "id", "description", "content", "title"] }

/-- One reported discrepancy.  The source appends formatted strings to its
differences list; each constructor here carries exactly the data interpolated
into the corresponding f-string of compare_objects. -/
inductive DiffRecord where
  | keyOnlyInLeft (path : String) (ks : List String) : DiffRecord
  | keyOnlyInRight (path : String) (ks : List String) : DiffRecord
  | typeMismatch (path : String) (type1 type2 : String) : DiffRecord
  | lengthMismatch (path : String) (len1 len2 : Nat) : DiffRecord
  | valueMismatch (path : String) (val1 val2 : JsonValue) : DiffRecord

/-- Location of a record. -/
def DiffRecord.path : DiffRecord → String
  | DiffRecord.keyOnlyInLeft p _ => p
  | DiffRecord.keyOnlyInRight p _ => p
  | DiffRecord.typeMismatch p _ _ => p
  | DiffRecord.lengthMismatch p _ _ => p
  | DiffRecord.valueMismatch p _ _ => p

/-- Whether a record is one of the two missing-key kinds. -/
def DiffRecord.isKeyOnly : DiffRecord → Bool
  | DiffRecord.keyOnlyInLeft _ _ => true
  | DiffRecord.keyOnlyInRight _ _ => true
  | _ => false

/-- The path of a type, length or value mismatch record; none for the two
missing-key record kinds. -/
def mismatchPath : DiffRecord → Option String
  | DiffRecord.typeMismatch p _ _ => some p
  | DiffRecord.lengthMismatch p _ _ => some p
  | DiffRecord.valueMismatch p _ _ => some p
  | _ => none

/-- A path strictly below q, except that recursion through empty keys can
keep the empty path at the empty path. -/
def afterPath (q p : String) : Prop :=
  q.length < p.length ∨ (q = "" ∧ p = "")

/-- Every mismatch record of d lies strictly below q (in the afterPath
sense). -/
def DeeperAt (q : String) (d : DiffRecord) : Prop :=
  ∀ p, mismatchPath d = some p → afterPath q p

/-- Every mismatch record of d lies at q itself or strictly below q. -/
def AtOrAfter (q : String) (d : DiffRecord) : Prop :=
  ∀ p, mismatchPath d = some p → p = q ∨ afterPath q p

/-- Whether a record is a length-mismatch record located exactly at q. -/
def isLengthMismatchAt (q : String) : DiffRecord → Bool
  | DiffRecord.lengthMismatch p _ _ => decide (p = q)
  | _ => false

/-- The missing-key prefix of the output: one keyOnlyInLeft record when some
keys are only on the left, then one keyOnlyInRight record when some keys are
only on the right, each carrying the sorted key list. -/
def missing_key_records (obj1 obj2 : JsonValue) (path : String) :
    List DiffRecord :=
  (if (pyKeys obj1).filter (fun k => !(decide (k ∈ pyKeys obj2))) = [] then []
   else [DiffRecord.keyOnlyInLeft path
      (pySorted ((pyKeys obj1).filter (fun k => !(decide (k ∈ pyKeys obj2)))))]) ++
  (if (pyKeys obj2).filter (fun k => !(decide (k ∈ pyKeys obj1))) = [] then []
   else [DiffRecord.keyOnlyInRight path
      (pySorted ((pyKeys obj2).filter (fun k => !(decide (k ∈ pyKeys obj1)))))])

/-- compare_field_types from the source: when the runtime type names differ
it returns the type-mismatch report for the given path, otherwise None. -/
def compare_field_types (val1 val2 : JsonValue) (path : String) :
    Option DiffRecord :=
  if typeName val1 ≠ typeName val2 then
    some (DiffRecord.typeMismatch path (typeName val1) (typeName val2))
  else
    none

/-- Python subscript obj[key] on a dict: KeyError when the key is absent. -/
def pyGetItem (fields : List (String × JsonValue)) (key : String) :
    Except String JsonValue :=
  match lookupField fields key with
  | some v => Except.ok v
  | none => Except.error ("KeyError: " ++ key)

/-- Python subscript lst[i] on a list: IndexError when out of bounds. -/
def pyIndex (items : List JsonValue) (i : Nat) : Except String JsonValue :=
  match items.get? i with
  | some v => Except.ok v
  | none => Except.error "IndexError: list index out of range"

/-- Python string slicing s[:n]: the first n code points. -/
def pySlice (s : String) (n : Nat) : String :=
  String.mk (s.data.take n)

/-- The preview expression of the summarizer in analyze_api_response.py,
applied to the rendering string s of a field value: the first 50 characters
followed by three dots when the rendering is longer than 50 characters, and
the rendering itself otherwise. -/
def sample_preview (s : String) : String :=
  if s.length > 50 then pySlice s 50 ++ "..." else s

theorem sizeOf_lookupField {fields : List (String × JsonValue)} {key : String}
    {v : JsonValue} (h : lookupField fields key = some v) :
    sizeOf v < sizeOf fields := by
  induction fields with
  | nil => simp [lookupField] at h
  | cons p rest ih =>
    obtain ⟨k, w⟩ := p
    simp only [lookupField] at h
    split at h
    · cases h
      simp only [List.cons.sizeOf_spec, Prod.mk.sizeOf_spec]
      omega
    · have := ih h
      simp only [List.cons.sizeOf_spec]
      omega

theorem sizeOf_pyGetItem {fields : List (String × JsonValue)} {key : String}
    {v : JsonValue} (h : pyGetItem fields key = Except.ok v) :
    sizeOf v < sizeOf fields := by
  unfold pyGetItem at h
  cases hl : lookupField fields key with
  | some w =>
    rw [hl] at h
    injection h with e
    subst e
    exact sizeOf_lookupField hl
  | none =>
    rw [hl] at h
    exact Except.noConfusion h

theorem sizeOf_pyIndex {items : List JsonValue} {i : Nat} {v : JsonValue}
    (h : pyIndex items i = Except.ok v) : sizeOf v < sizeOf items := by
  unfold pyIndex at h
  cases hl : items.get? i with
  | some w =>
    rw [hl] at h
    injection h with e
    subst e
    exact List.sizeOf_lt_of_mem (List.get?_mem hl)
  | none =>
    rw [hl] at h
    exact Except.noConfusion h

mutual

/-- compare_objects from the source.  It first reports the keys present on
only one side (sorted, one record per side), then walks the common keys:
ignored keys are skipped, a type mismatch is reported and cuts recursion,
dicts recurse, lists are length-compared and sampled at index 0, and equal
typed scalar leaves are value-compared unless the key is value-exempt. -/
def compare_objects (cfg : ComparisonConfig) (obj1 obj2 : JsonValue)
    (path : String) : List DiffRecord :=
  let keys1 := pyKeys obj1
  let keys2 := pyKeys obj2
  let only_in_current := keys1.filter (fun k => !(decide (k ∈ keys2)))
  let only_in_new := keys2.filter (fun k => !(decide (k ∈ keys1)))
  ((if only_in_current = [] then []
    else [DiffRecord.keyOnlyInLeft path (pySorted only_in_current)]) ++
   (if only_in_new = [] then []
    else [DiffRecord.keyOnlyInRight path (pySorted only_in_new)])) ++
  (match obj1, obj2 with
   | JsonValue.dict f1, JsonValue.dict f2 =>
       compare_common cfg f1 f2 path (commonKeys f1 f2)
   | _, _ => [])
termination_by (sizeOf obj1 + sizeOf obj2, 0)
decreasing_by
  apply Prod.Lex.left
  simp only [JsonValue.dict.sizeOf_spec]
  omega

/-- The common-key loop of compare_objects over the listed keys, in iteration
order: each key contributes the records of one loop iteration, in order. -/
def compare_common (cfg : ComparisonConfig)
    (f1 f2 : List (String × JsonValue)) (path : String) :
    List String → List DiffRecord
  | [] => []
  | key :: rest =>
      (match h1 : lookupField f1 key, h2 : lookupField f2 key with
       | some val1, some val2 =>
           compare_value cfg val1 val2 key (pathJoin path key)
       | _, _ => []) ++
      compare_common cfg f1 f2 path rest
termination_by keys => (sizeOf f1 + sizeOf f2, keys.length + 3)
decreasing_by
  · apply Prod.Lex.left
    have hs1 := sizeOf_lookupField h1
    have hs2 := sizeOf_lookupField h2
    omega
  · apply Prod.Lex.right
    simp only [List.length_cons]
    omega

/-- One iteration of the common-key loop of compare_objects: val1 and val2
are the two values found at the common key, new_path the extended path.  An
ignored key is skipped, a runtime type difference yields the type-mismatch
record and stops, and otherwise the same-type dispatch continues below. -/
def compare_value (cfg : ComparisonConfig) (val1 val2 : JsonValue)
    (key new_path : String) : List DiffRecord :=
  if key ∈ cfg.ignoredKeys then []
  else
    match compare_field_types val1 val2 new_path with
    | some d => [d]
    | none => compare_same_type cfg val1 val2 key new_path
termination_by (sizeOf val1 + sizeOf val2, 2)
decreasing_by
  apply Prod.Lex.right
  omega

/-- The tail of the loop body once the runtime types agree: dicts recurse,
lists are length-compared and sampled at the first element, and scalar
leaves are value-compared unless the key is value-exempt. -/
def compare_same_type (cfg : ComparisonConfig) (val1 val2 : JsonValue)
    (key new_path : String) : List DiffRecord :=
  match val1, val2 with
  | JsonValue.dict g1, JsonValue.dict g2 =>
      compare_objects cfg (JsonValue.dict g1) (JsonValue.dict g2) new_path
  | JsonValue.list l1, JsonValue.list l2 =>
      (if l1.length ≠ l2.length then
         [DiffRecord.lengthMismatch new_path l1.length l2.length]
       else []) ++
      (match l1, l2 with
       | JsonValue.dict e1 :: _, JsonValue.dict e2 :: _ =>
           compare_objects cfg (JsonValue.dict e1) (JsonValue.dict e2)
             (new_path ++ "[0]")
       | _, _ => [])
  | _, _ =>
      if !(pyEq val1 val2) && !(decide (key ∈ cfg.valueExemptKeys)) then
        [DiffRecord.valueMismatch new_path val1 val2]
      else []
termination_by (sizeOf val1 + sizeOf val2, 1)
decreasing_by
  · apply Prod.Lex.right
    omega
  · apply Prod.Lex.left
    simp only [JsonValue.list.sizeOf_spec, List.cons.sizeOf_spec]
    omega

end

/-- The records contributed by one iteration of the common-key loop: the
values at the key are looked up on both sides and compared. -/
def loopBody (cfg : ComparisonConfig) (f1 f2 : List (String × JsonValue))
    (path key : String) : List DiffRecord :=
  match lookupField f1 key, lookupField f2 key with
  | some v1, some v2 => compare_value cfg v1 v2 key (pathJoin path key)
  | _, _ => []

mutual

/-- compare_objects translated with the fallible dictionary and list
subscripts made explicit: each subscript returns Except and an error
propagates outward, exactly as a raised Python exception would.  The
totality theorem shows that no error is reachable. -/
def compare_objectsE (cfg : ComparisonConfig) (obj1 obj2 : JsonValue)
    (path : String) : Except String (List DiffRecord) :=
  let keys1 := pyKeys obj1
  let keys2 := pyKeys obj2
  let only_in_current := keys1.filter (fun k => !(decide (k ∈ keys2)))
  let only_in_new := keys2.filter (fun k => !(decide (k ∈ keys1)))
  let missing :=
    ((if only_in_current = [] then []
      else [DiffRecord.keyOnlyInLeft path (pySorted only_in_current)]) ++
     (if only_in_new = [] then []
      else [DiffRecord.keyOnlyInRight path (pySorted only_in_new)]))
  match obj1, obj2 with
  | JsonValue.dict f1, JsonValue.dict f2 =>
      match compare_commonE cfg f1 f2 path (commonKeys f1 f2) with
      | Except.ok ds => Except.ok (missing ++ ds)
      | Except.error e => Except.error e
  | _, _ => Except.ok missing
termination_by (sizeOf obj1 + sizeOf obj2, 0)
decreasing_by
  apply Prod.Lex.left
  simp only [JsonValue.dict.sizeOf_spec]
  omega

/-- The common-key loop of the fallible translation. -/
def compare_commonE (cfg : ComparisonConfig)
    (f1 f2 : List (String × JsonValue)) (path : String) :
    List String → Except String (List DiffRecord)
  | [] => Except.ok []
  | key :: rest =>
      match h1 : pyGetItem f1 key with
      | Except.error e => Except.error e
      | Except.ok val1 =>
        match h2 : pyGetItem f2 key with
        | Except.error e => Except.error e
        | Except.ok val2 =>
          match compare_valueE cfg val1 val2 key (pathJoin path key) with
          | Except.error e => Except.error e
          | Except.ok ds =>
            match compare_commonE cfg f1 f2 path rest with
            | Except.error e => Except.error e
            | Except.ok ds2 => Except.ok (ds ++ ds2)
termination_by keys => (sizeOf f1 + sizeOf f2, keys.length + 3)
decreasing_by
  · apply Prod.Lex.left
    have hs1 := sizeOf_pyGetItem h1
    have hs2 := sizeOf_pyGetItem h2
    omega
  · apply Prod.Lex.right
    simp only [List.length_cons]
    omega

/-- One loop iteration of the fallible translation. -/
def compare_valueE (cfg : ComparisonConfig) (val1 val2 : JsonValue)
    (key new_path : String) : Except String (List DiffRecord) :=
  if key ∈ cfg.ignoredKeys then Except.ok []
  else
    match compare_field_types val1 val2 new_path with
    | some d => Except.ok [d]
    | none => compare_same_typeE cfg val1 val2 key new_path
termination_by (sizeOf val1 + sizeOf val2, 2)
decreasing_by
  apply Prod.Lex.right
  omega

/-- The same-type dispatch of the fallible translation.  The two index-0
accesses are guarded by the truthiness tests of the source; the guard makes
them provably in bounds. -/
def compare_same_typeE (cfg : ComparisonConfig) (val1 val2 : JsonValue)
    (key new_path : String) : Except String (List DiffRecord) :=
  match val1, val2 with
  | JsonValue.dict g1, JsonValue.dict g2 =>
      compare_objectsE cfg (JsonValue.dict g1) (JsonValue.dict g2) new_path
  | JsonValue.list l1, JsonValue.list l2 =>
      let lenDiffs :=
        if l1.length ≠ l2.length then
          [DiffRecord.lengthMismatch new_path l1.length l2.length]
        else []
      if l1.length ≠ 0 ∧ l2.length ≠ 0 then
        match hx : pyIndex l1 0 with
        | Except.error e => Except.error e
        | Except.ok x =>
          match hy : pyIndex l2 0 with
          | Except.error e => Except.error e
          | Except.ok y =>
            match x, y with
            | JsonValue.dict e1, JsonValue.dict e2 =>
              match compare_objectsE cfg (JsonValue.dict e1)
                  (JsonValue.dict e2) (new_path ++ "[0]") with
              | Except.error e => Except.error e
              | Except.ok ds => Except.ok (lenDiffs ++ ds)
            | _, _ => Except.ok lenDiffs
      else Except.ok lenDiffs
  | _, _ =>
      if !(pyEq val1 val2) && !(decide (key ∈ cfg.valueExemptKeys)) then
        Except.ok [DiffRecord.valueMismatch new_path val1 val2]
      else Except.ok []
termination_by (sizeOf val1 + sizeOf val2, 1)
decreasing_by
  · apply Prod.Lex.right
    omega
  · apply Prod.Lex.left
    have hs1 := sizeOf_pyIndex hx
    have hs2 := sizeOf_pyIndex hy
    simp only [JsonValue.list.sizeOf_spec] at *
    omega

end

theorem pyEq_refl_aux :
    ∀ (n : Nat) (v : JsonValue), sizeOf v ≤ n → pyEq v v = true := by
  intro n
  induction n using Nat.strong_induction_on with
  | _ n IH =>
    intro v hv
    match v with
    | JsonValue.null => rw [pyEq.eq_def]
    | JsonValue.bool b => rw [pyEq.eq_def]; simp
    | JsonValue.int m => rw [pyEq.eq_def]; simp
    | JsonValue.float q => rw [pyEq.eq_def]; simp
    | JsonValue.str s => rw [pyEq.eq_def]; simp
    | JsonValue.list [] => rw [pyEq.eq_def]
    | JsonValue.list (x :: xs) =>
      have hsz : sizeOf (JsonValue.list (x :: xs)) =
          1 + (1 + sizeOf x + sizeOf xs) := by
        simp only [JsonValue.list.sizeOf_spec, List.cons.sizeOf_spec]
      have hx := IH (sizeOf x) (by omega) x le_rfl
      have hxs := IH (sizeOf (JsonValue.list xs))
        (by simp only [JsonValue.list.sizeOf_spec]; omega)
        (JsonValue.list xs) le_rfl
      rw [pyEq.eq_def]
      simp [hx, hxs]
    | JsonValue.dict [] => rw [pyEq.eq_def]
    | JsonValue.dict ((k, w) :: xs) =>
      have hsz : sizeOf (JsonValue.dict ((k, w) :: xs)) =
          1 + (1 + (1 + sizeOf k + sizeOf w) + sizeOf xs) := by
        simp only [JsonValue.dict.sizeOf_spec, List.cons.sizeOf_spec,
          Prod.mk.sizeOf_spec]
      have hw := IH (sizeOf w) (by omega) w le_rfl
      have hxs := IH (sizeOf (JsonValue.dict xs))
        (by simp only [JsonValue.dict.sizeOf_spec]; omega)
        (JsonValue.dict xs) le_rfl
      rw [pyEq.eq_def]
      simp [hw, hxs]

theorem pyEq_refl (v : JsonValue) : pyEq v v = true :=
  pyEq_refl_aux (sizeOf v) v le_rfl

theorem filter_not_mem_self (keys : List String) :
    keys.filter (fun k => !(decide (k ∈ keys))) = [] := by
  rw [List.filter_eq_nil_iff]
  intro a ha
  simp [ha]

theorem compare_field_types_self (v : JsonValue) (p : String) :
    compare_field_types v v p = none := by
  simp [compare_field_types]

theorem compare_value_refl (cfg : ComparisonConfig) (v : JsonValue)
    (key np : String)
    (H1 : ∀ (w : JsonValue) (p : String), sizeOf w ≤ sizeOf v →
      compare_objects cfg w w p = []) :
    compare_value cfg v v key np = [] := by
  rw [compare_value.eq_def]
  rw [compare_field_types_self]
  rw [compare_same_type.eq_def]
  match v with
  | JsonValue.null => simp [pyEq_refl]
  | JsonValue.bool b => simp [pyEq_refl]
  | JsonValue.int m => simp [pyEq_refl]
  | JsonValue.float q => simp [pyEq_refl]
  | JsonValue.str s => simp [pyEq_refl]
  | JsonValue.dict g => simp [H1 (JsonValue.dict g) np le_rfl]
  | JsonValue.list l =>
    have hrec :
        (match l, l with
         | JsonValue.dict e1 :: _, JsonValue.dict e2 :: _ =>
             compare_objects cfg (JsonValue.dict e1) (JsonValue.dict e2)
               (np ++ "[0]")
         | _, _ => ([] : List DiffRecord)) = [] := by
      match l with
      | [] => rfl
      | JsonValue.null :: _ => rfl
      | JsonValue.bool _ :: _ => rfl
      | JsonValue.int _ :: _ => rfl
      | JsonValue.float _ :: _ => rfl
      | JsonValue.str _ :: _ => rfl
      | JsonValue.list _ :: _ => rfl
      | JsonValue.dict e :: rest =>
        apply H1 (JsonValue.dict e) (np ++ "[0]")
        simp only [JsonValue.list.sizeOf_spec, List.cons.sizeOf_spec]
        omega
    simp [hrec]

theorem compare_common_refl (cfg : ComparisonConfig)
    (f : List (String × JsonValue)) (path : String) (keys : List String)
    (H1 : ∀ (w : JsonValue) (p : String), sizeOf w < sizeOf f →
      compare_objects cfg w w p = []) :
    compare_common cfg f f path keys = [] := by
  induction keys with
  | nil => rw [compare_common.eq_def]
  | cons key rest ih =>
    rw [compare_common.eq_def]
    simp only [ih, List.append_nil]
    split
    · rename_i val1 val2 h1 h2
      have hv : val1 = val2 := by
        rw [h1] at h2
        injection h2
      subst hv
      have hs : sizeOf val1 < sizeOf f := sizeOf_lookupField h1
      exact compare_value_refl cfg val1 key (pathJoin path key)
        (fun w p hw => H1 w p (by omega))
    · rfl

theorem compare_objects_refl_aux :
    ∀ (n : Nat) (cfg : ComparisonConfig) (x : JsonValue) (path : String),
    sizeOf x ≤ n → compare_objects cfg x x path = [] := by
  intro n
  induction n using Nat.strong_induction_on with
  | _ n IH =>
    intro cfg x path hx
    rw [compare_objects.eq_def]
    simp only [filter_not_mem_self, if_pos rfl, List.nil_append,
      List.append_nil]
    match x with
    | JsonValue.null => rfl
    | JsonValue.bool b => rfl
    | JsonValue.int m => rfl
    | JsonValue.float q => rfl
    | JsonValue.str s => rfl
    | JsonValue.list l => rfl
    | JsonValue.dict f =>
      apply compare_common_refl
      intro w p hw
      have hd : sizeOf f < sizeOf (JsonValue.dict f) := by
        simp only [JsonValue.dict.sizeOf_spec]; omega
      exact IH (sizeOf w) (by omega) cfg w p le_rfl

/-- Reflexivity of the comparison for every input and every configuration. -/
theorem compare_objects_refl (cfg : ComparisonConfig) (x : JsonValue)
    (path : String) : compare_objects cfg x x path = [] :=
  compare_objects_refl_aux (sizeOf x) cfg x path le_rfl

theorem string_eq_empty_of_length {s : String} (h : s.length = 0) :
    s = "" := by
  obtain ⟨data⟩ := s
  cases data with
  | nil => rfl
  | cons c cs => simp [String.length] at h

theorem pathJoin_length (q k : String) :
    (pathJoin q k).length =
      if q = "" then k.length else q.length + 1 + k.length := by
  unfold pathJoin
  split
  · rfl
  · have hd : ("." : String).length = 1 := rfl
    rw [String.length_append, String.length_append, hd]

theorem afterPath_pathJoin_self (q k : String) :
    afterPath q (pathJoin q k) := by
  unfold afterPath
  rw [pathJoin_length]
  by_cases hq : q = ""
  · subst hq
    by_cases hk : k = ""
    · subst hk
      right
      refine ⟨rfl, ?_⟩
      unfold pathJoin
      rw [if_pos rfl]
    · left
      rw [if_pos rfl, String.length_empty]
      have : k.length ≠ 0 := fun h => hk (string_eq_empty_of_length h)
      omega
  · left
    rw [if_neg hq]
    omega

theorem afterPath_pathJoin (q k p : String)
    (h : afterPath (pathJoin q k) p) : afterPath q p := by
  unfold afterPath at h ⊢
  rw [pathJoin_length] at h
  by_cases hq : q = ""
  · subst hq
    rw [if_pos rfl] at h
    rcases h with h | ⟨hjk, hp⟩
    · left
      rw [String.length_empty]
      omega
    · right
      exact ⟨rfl, hp⟩
  · rw [if_neg hq] at h
    rcases h with h | ⟨hjk, hp⟩
    · left
      omega
    · exfalso
      have h0 : (pathJoin q k).length = 0 := by
        rw [hjk, String.length_empty]
      rw [pathJoin_length, if_neg hq] at h0
      omega

theorem afterPath_bracket (q p : String)
    (h : afterPath (q ++ "[0]") p) : q.length < p.length := by
  unfold afterPath at h
  have hb : ("[0]" : String).length = 3 := rfl
  rcases h with h | ⟨hq, hp⟩
  · rw [String.length_append, hb] at h
    omega
  · exfalso
    have h0 : (q ++ "[0]").length = 0 := by
      rw [hq, String.length_empty]
    rw [String.length_append, hb] at h0
    omega

theorem atOrAfter_same_type (cfg : ComparisonConfig) (val1 val2 : JsonValue)
    (key np : String)
    (H : ∀ (a b : JsonValue) (p : String),
      sizeOf a + sizeOf b ≤ sizeOf val1 + sizeOf val2 →
      ∀ d ∈ compare_objects cfg a b p, DeeperAt p d) :
    ∀ d ∈ compare_same_type cfg val1 val2 key np, AtOrAfter np d := by
  intro d hd
  rw [compare_same_type.eq_def] at hd
  split at hd
  · -- both dicts: the recursion stays at np or below
    intro p hp
    exact Or.inr (H _ _ np le_rfl d hd p hp)
  · -- both lists
    rcases List.mem_append.mp hd with hd1 | hd2
    · intro p hp
      split at hd1
      · simp only [List.mem_singleton] at hd1
        subst hd1
        simp only [mismatchPath, Option.some.injEq] at hp
        exact Or.inl hp.symm
      · simp at hd1
    · split at hd2
      · rename_i e1 t1 e2 t2
        intro p hp
        have hszl : sizeOf (JsonValue.dict e1) + sizeOf (JsonValue.dict e2) ≤
            sizeOf (JsonValue.list (JsonValue.dict e1 :: t1)) +
              sizeOf (JsonValue.list (JsonValue.dict e2 :: t2)) := by
          simp only [JsonValue.list.sizeOf_spec, List.cons.sizeOf_spec]
          omega
        have hdeep := H _ _ (np ++ "[0]") hszl d hd2 p hp
        exact Or.inr (Or.inl (afterPath_bracket np p hdeep))
      · simp at hd2
  · -- scalar leaves
    intro p hp
    split at hd
    · simp only [List.mem_singleton] at hd
      subst hd
      simp only [mismatchPath, Option.some.injEq] at hp
      exact Or.inl hp.symm
    · simp at hd

theorem atOrAfter_value (cfg : ComparisonConfig) (val1 val2 : JsonValue)
    (key np : String)
    (H : ∀ (a b : JsonValue) (p : String),
      sizeOf a + sizeOf b ≤ sizeOf val1 + sizeOf val2 →
      ∀ d ∈ compare_objects cfg a b p, DeeperAt p d) :
    ∀ d ∈ compare_value cfg val1 val2 key np, AtOrAfter np d := by
  intro d hd
  rw [compare_value.eq_def] at hd
  split at hd
  · simp at hd
  · split at hd
    · rename_i d0 heq
      unfold compare_field_types at heq
      split at heq
      · simp only [Option.some.injEq] at heq
        subst heq
        simp only [List.mem_singleton] at hd
        subst hd
        intro p hp
        simp only [mismatchPath, Option.some.injEq] at hp
        exact Or.inl hp.symm
      · exact absurd heq (by simp)
    · exact atOrAfter_same_type cfg val1 val2 key np H d hd

theorem deeper_common (cfg : ComparisonConfig)
    (f1 f2 : List (String × JsonValue)) (q : String) (keys : List String)
    (H : ∀ (a b : JsonValue) (p : String),
      sizeOf a + sizeOf b < sizeOf f1 + sizeOf f2 →
      ∀ d ∈ compare_objects cfg a b p, DeeperAt p d) :
    ∀ d ∈ compare_common cfg f1 f2 q keys, DeeperAt q d := by
  induction keys with
  | nil =>
    intro d hd
    rw [compare_common.eq_def] at hd
    simp at hd
  | cons key rest ih =>
    intro d hd
    rw [compare_common.eq_def] at hd
    simp only [List.mem_append] at hd
    rcases hd with hd1 | hd2
    · split at hd1
      · rename_i val1 val2 h1 h2
        have hsz1 := sizeOf_lookupField h1
        have hsz2 := sizeOf_lookupField h2
        have hao := atOrAfter_value cfg val1 val2 key (pathJoin q key)
          (fun a b p hab d' hd' => H a b p (by omega) d' hd') d hd1
        intro p hp
        rcases hao p hp with rfl | hafter
        · exact afterPath_pathJoin_self q key
        · exact afterPath_pathJoin q key p hafter
      · simp at hd1
    · exact ih d hd2

theorem deeper_aux :
    ∀ (n : Nat) (cfg : ComparisonConfig) (o1 o2 : JsonValue) (q : String),
    sizeOf o1 + sizeOf o2 ≤ n →
    ∀ d ∈ compare_objects cfg o1 o2 q, DeeperAt q d := by
  intro n
  induction n using Nat.strong_induction_on with
  | _ n IH =>
    intro cfg o1 o2 q hn d hd
    rw [compare_objects.eq_def] at hd
    simp only [List.mem_append] at hd
    rcases hd with (hd | hd) | hd
    · intro p hp
      exfalso
      split at hd
      · simp at hd
      · simp only [List.mem_singleton] at hd
        subst hd
        simp [mismatchPath] at hp
    · intro p hp
      exfalso
      split at hd
      · simp at hd
      · simp only [List.mem_singleton] at hd
        subst hd
        simp [mismatchPath] at hp
    · split at hd
      · rename_i f1 f2
        have hsz : sizeOf f1 + sizeOf f2 <
            sizeOf (JsonValue.dict f1) + sizeOf (JsonValue.dict f2) := by
          simp only [JsonValue.dict.sizeOf_spec]
          omega
        exact deeper_common cfg f1 f2 q (commonKeys f1 f2)
          (fun a b p hab d' hd' =>
            IH (sizeOf a + sizeOf b) (by omega) cfg a b p le_rfl d' hd')
          d hd
      · simp at hd

/-- Every type, length or value mismatch reported by a call at path q lies
at a strictly longer path, except that a chain of empty keys starting from
the empty path can stay at the empty path. -/
theorem compare_objects_deeper (cfg : ComparisonConfig) (o1 o2 : JsonValue)
    (q : String) : ∀ d ∈ compare_objects cfg o1 o2 q, DeeperAt q d :=
  deeper_aux (sizeOf o1 + sizeOf o2) cfg o1 o2 q le_rfl

theorem mem_pySorted {a : String} {l : List String} :
    a ∈ pySorted l ↔ a ∈ l :=
  (List.perm_insertionSort (fun a b => a ≤ b) l).mem_iff

theorem pyKeys_eq_nil {v : JsonValue} (h : isDict v = false) :
    pyKeys v = [] := by
  cases v <;> simp_all [isDict, pyKeys]

theorem pathJoin_ne_empty {path k : String} (hk : k ≠ "") :
    pathJoin path k ≠ "" := by
  intro h0
  have hl : (pathJoin path k).length = 0 := by
    rw [h0, String.length_empty]
  rw [pathJoin_length] at hl
  by_cases hp : path = ""
  · rw [if_pos hp] at hl
    exact hk (string_eq_empty_of_length hl)
  · rw [if_neg hp] at hl
    omega

theorem compare_value_ignored (cfg : ComparisonConfig) (v1 v2 : JsonValue)
    (k np : String) (h : k ∈ cfg.ignoredKeys) :
    compare_value cfg v1 v2 k np = [] := by
  rw [compare_value.eq_def, if_pos h]

theorem compare_value_type_mismatch (cfg : ComparisonConfig)
    (v1 v2 : JsonValue) (k np : String) (hk : k ∉ cfg.ignoredKeys)
    (ht : typeName v1 ≠ typeName v2) :
    compare_value cfg v1 v2 k np =
      [DiffRecord.typeMismatch np (typeName v1) (typeName v2)] := by
  rw [compare_value.eq_def, if_neg hk]
  unfold compare_field_types
  rw [if_pos ht]

theorem compare_value_same_type (cfg : ComparisonConfig)
    (v1 v2 : JsonValue) (k np : String) (hk : k ∉ cfg.ignoredKeys)
    (ht : typeName v1 = typeName v2) :
    compare_value cfg v1 v2 k np = compare_same_type cfg v1 v2 k np := by
  rw [compare_value.eq_def, if_neg hk]
  have : compare_field_types v1 v2 np = none := by
    unfold compare_field_types
    rw [if_neg (by simp [ht])]
  rw [this]

theorem lookupField_single (k : String) (v : JsonValue) :
    lookupField [(k, v)] k = some v := by
  simp [lookupField]

theorem compare_objects_single_key (cfg : ComparisonConfig) (k : String)
    (v1 v2 : JsonValue) (path : String) :
    compare_objects cfg (JsonValue.dict [(k, v1)]) (JsonValue.dict [(k, v2)])
      path = compare_value cfg v1 v2 k (pathJoin path k) := by
  rw [compare_objects.eq_def]
  simp [pyKeys, commonKeys, lookupField_single, compare_common.eq_def]
  split
  · rename_i val1 val2 h1 h2
    rw [lookupField_single] at h1 h2
    injection h1 with e1
    injection h2 with e2
    subst e1
    subst e2
    rfl
  · rename_i h
    exact absurd (lookupField_single k v1) (by
      intro h1
      exact h v1 v2 h1 (lookupField_single k v2))

theorem default_exempt_props {k : String}
    (h : k ∈ default_config.valueExemptKeys) :
    k ∉ default_config.ignoredKeys ∧ k ≠ "" := by
  simp only [default_config, List.mem_cons, List.not_mem_nil, or_false] at h
  rcases h with rfl | rfl | rfl | rfl | rfl <;> exact ⟨by decide, by decide⟩

theorem compare_common_eq_flatMap (cfg : ComparisonConfig)
    (f1 f2 : List (String × JsonValue)) (path : String) (keys : List String) :
    compare_common cfg f1 f2 path keys =
      keys.flatMap (loopBody cfg f1 f2 path) := by
  induction keys with
  | nil => rw [compare_common.eq_def]; rfl
  | cons key rest ih =>
    rw [compare_common.eq_def]
    simp only [List.flatMap_cons, ih]
    congr 1
    split
    · rename_i v1 v2 h1 h2
      unfold loopBody
      rw [h1, h2]
    · rename_i hno
      unfold loopBody
      cases hx : lookupField f1 key <;> cases hy : lookupField f2 key
      · rfl
      · rfl
      · rfl
      · exact absurd hx (fun hx => hno _ _ hx hy)

theorem lookupField_of_mem_keys {f : List (String × JsonValue)} {k : String}
    (h : k ∈ f.map Prod.fst) : ∃ v, lookupField f k = some v := by
  induction f with
  | nil => simp at h
  | cons p rest ih =>
    obtain ⟨k0, v0⟩ := p
    by_cases he : k0 = k
    · exact ⟨v0, by simp [lookupField, he]⟩
    · simp only [List.map_cons, List.mem_cons] at h
      rcases h with h | h
      · exact absurd h.symm he
      · obtain ⟨v, hv⟩ := ih h
        exact ⟨v, by simp [lookupField, he, hv]⟩

theorem pyGetItem_of_mem_keys {f : List (String × JsonValue)} {k : String}
    (h : k ∈ f.map Prod.fst) : ∃ v, pyGetItem f k = Except.ok v := by
  obtain ⟨v, hv⟩ := lookupField_of_mem_keys h
  exact ⟨v, by unfold pyGetItem; rw [hv]⟩

theorem compare_same_typeE_ok (cfg : ComparisonConfig) (val1 val2 : JsonValue)
    (key np : String)
    (H : ∀ (a b : JsonValue) (p : String),
      sizeOf a + sizeOf b ≤ sizeOf val1 + sizeOf val2 →
      ∃ ds, compare_objectsE cfg a b p = Except.ok ds) :
    ∃ ds, compare_same_typeE cfg val1 val2 key np = Except.ok ds := by
  rw [compare_same_typeE.eq_def]
  split
  · exact H _ _ np le_rfl
  · rename_i l1 l2
    by_cases hg : l1.length ≠ 0 ∧ l2.length ≠ 0
    · rw [if_pos hg]
      obtain ⟨x, hx⟩ : ∃ x, pyIndex l1 0 = Except.ok x := by
        cases l1 with
        | nil => simp at hg
        | cons a as => exact ⟨a, rfl⟩
      obtain ⟨y, hy⟩ : ∃ y, pyIndex l2 0 = Except.ok y := by
        cases l2 with
        | nil => simp at hg
        | cons a as => exact ⟨a, rfl⟩
      split
      · rename_i e he
        rw [hx] at he
        exact Except.noConfusion he
      · rename_i x0 hx0
        split
        · rename_i e he
          rw [hy] at he
          exact Except.noConfusion he
        · rename_i y0 hy0
          have hsx := sizeOf_pyIndex hx0
          have hsy := sizeOf_pyIndex hy0
          match x0, y0 with
          | JsonValue.dict e1, JsonValue.dict e2 =>
            have hsz : sizeOf (JsonValue.dict e1) + sizeOf (JsonValue.dict e2) ≤
                sizeOf (JsonValue.list l1) + sizeOf (JsonValue.list l2) := by
              simp only [JsonValue.list.sizeOf_spec]
              omega
            obtain ⟨ds, hds⟩ := H (JsonValue.dict e1) (JsonValue.dict e2)
              (np ++ "[0]") hsz
            simp only [hds]
            exact ⟨_, rfl⟩
          | JsonValue.null, _ => exact ⟨_, rfl⟩
          | JsonValue.bool _, _ => exact ⟨_, rfl⟩
          | JsonValue.int _, _ => exact ⟨_, rfl⟩
          | JsonValue.float _, _ => exact ⟨_, rfl⟩
          | JsonValue.str _, _ => exact ⟨_, rfl⟩
          | JsonValue.list _, _ => exact ⟨_, rfl⟩
          | JsonValue.dict _, JsonValue.null => exact ⟨_, rfl⟩
          | JsonValue.dict _, JsonValue.bool _ => exact ⟨_, rfl⟩
          | JsonValue.dict _, JsonValue.int _ => exact ⟨_, rfl⟩
          | JsonValue.dict _, JsonValue.float _ => exact ⟨_, rfl⟩
          | JsonValue.dict _, JsonValue.str _ => exact ⟨_, rfl⟩
          | JsonValue.dict _, JsonValue.list _ => exact ⟨_, rfl⟩
    · rw [if_neg hg]
      exact ⟨_, rfl⟩
  · split
    · exact ⟨_, rfl⟩
    · exact ⟨_, rfl⟩

theorem compare_valueE_ok (cfg : ComparisonConfig) (val1 val2 : JsonValue)
    (key np : String)
    (H : ∀ (a b : JsonValue) (p : String),
      sizeOf a + sizeOf b ≤ sizeOf val1 + sizeOf val2 →
      ∃ ds, compare_objectsE cfg a b p = Except.ok ds) :
    ∃ ds, compare_valueE cfg val1 val2 key np = Except.ok ds := by
  rw [compare_valueE.eq_def]
  split
  · exact ⟨_, rfl⟩
  · split
    · exact ⟨_, rfl⟩
    · exact compare_same_typeE_ok cfg val1 val2 key np H

theorem compare_commonE_ok (cfg : ComparisonConfig)
    (f1 f2 : List (String × JsonValue)) (path : String) (keys : List String)
    (H : ∀ (a b : JsonValue) (p : String),
      sizeOf a + sizeOf b < sizeOf f1 + sizeOf f2 →
      ∃ ds, compare_objectsE cfg a b p = Except.ok ds)
    (hkeys : ∀ k ∈ keys, k ∈ f1.map Prod.fst ∧ k ∈ f2.map Prod.fst) :
    ∃ ds, compare_commonE cfg f1 f2 path keys = Except.ok ds := by
  induction keys with
  | nil => exact ⟨[], by rw [compare_commonE.eq_def]⟩
  | cons key rest ih =>
    have hk := hkeys key (List.mem_cons_self key rest)
    obtain ⟨v1, hv1⟩ := pyGetItem_of_mem_keys hk.1
    obtain ⟨v2, hv2⟩ := pyGetItem_of_mem_keys hk.2
    have ihr := ih (fun k hkm => hkeys k (List.mem_cons_of_mem key hkm))
    obtain ⟨ds2, hds2⟩ := ihr
    rw [compare_commonE.eq_2]
    split
    · rename_i e he
      rw [hv1] at he
      exact Except.noConfusion he
    · rename_i val1 h1
      rw [hv1] at h1
      injection h1 with h1e
      subst h1e
      split
      · rename_i e he
        rw [hv2] at he
        exact Except.noConfusion he
      · rename_i val2 h2
        rw [hv2] at h2
        injection h2 with h2e
        subst h2e
        have hs1 := sizeOf_pyGetItem hv1
        have hs2 := sizeOf_pyGetItem hv2
        obtain ⟨ds, hds⟩ := compare_valueE_ok cfg v1 v2 key
          (pathJoin path key) (fun a b p hab => H a b p (by omega))
        rw [hds, hds2]
        exact ⟨_, rfl⟩

theorem compare_objectsE_total_aux :
    ∀ (n : Nat) (cfg : ComparisonConfig) (o1 o2 : JsonValue) (p : String),
    sizeOf o1 + sizeOf o2 ≤ n →
    ∃ ds, compare_objectsE cfg o1 o2 p = Except.ok ds := by
  intro n
  induction n using Nat.strong_induction_on with
  | _ n IH =>
    intro cfg o1 o2 p hn
    rw [compare_objectsE.eq_def]
    split
    · rename_i f1 f2
      have hsz : sizeOf f1 + sizeOf f2 <
          sizeOf (JsonValue.dict f1) + sizeOf (JsonValue.dict f2) := by
        simp only [JsonValue.dict.sizeOf_spec]
        omega
      have hcom := compare_commonE_ok cfg f1 f2 p (commonKeys f1 f2)
        (fun a b q hab => IH (sizeOf a + sizeOf b) (by omega) cfg a b q le_rfl)
        (by
          intro k hkm
          unfold commonKeys at hkm
          rw [List.mem_filter] at hkm
          exact ⟨hkm.1, by simpa using hkm.2⟩)
      obtain ⟨ds, hds⟩ := hcom
      rw [hds]
      exact ⟨_, rfl⟩
    · exact ⟨_, rfl⟩

theorem pySlice_length {s : String} (h : 50 < s.length) :
    (pySlice s 50).length = 50 := by
  obtain ⟨data⟩ := s
  unfold pySlice
  simp only [String.length_mk, List.length_take, String.length] at h ⊢
  omega

/-- C5: Reflexivity: for every JsonValue X and every ComparisonConfig,
Compare(X, X, "", config) returns the empty sequence of DiffRecords. -/
theorem compare_objects_reflexivity (x : JsonValue) (cfg : ComparisonConfig) :
    compare_objects cfg x x "" = [] :=
  compare_objects_refl cfg x ""

/-- C2 (counterexample): a call with exactly one object side does emit a
missing-key record, refuting the claim that no KeyOnlyInLeft or
KeyOnlyInRight record is emitted whenever at least one input is not an
object. -/
theorem one_sided_object_counterexample :
    compare_objects default_config (JsonValue.int 5)
        (JsonValue.dict [("a", JsonValue.int 1)]) "" =
      [DiffRecord.keyOnlyInRight "" ["a"]] ∧
    DiffRecord.isKeyOnly (DiffRecord.keyOnlyInRight "" ["a"]) = true := by
  constructor
  · rw [compare_objects.eq_def]
    simp [pyKeys, pySorted, List.insertionSort, List.orderedInsert]
  · rfl

/-- C2 (amended): when at least one input is not an object the call does not
fail, performs no recursion, and every record it emits is a missing-key
record located at the call path — the object side (if any) has its keys
reported as a KeyOnly record; when neither input is an object the result is
empty. -/
theorem compare_objects_non_object_amended (cfg : ComparisonConfig)
    (o1 o2 : JsonValue) (p : String)
    (h : isDict o1 = false ∨ isDict o2 = false) :
    (∀ d ∈ compare_objects cfg o1 o2 p,
      DiffRecord.path d = p ∧ DiffRecord.isKeyOnly d = true) ∧
    (isDict o1 = false → isDict o2 = false →
      compare_objects cfg o1 o2 p = []) := by
  have hmatch : (match o1, o2 with
     | JsonValue.dict f1, JsonValue.dict f2 =>
         compare_common cfg f1 f2 p (commonKeys f1 f2)
     | _, _ => ([] : List DiffRecord)) = [] := by
    cases o1 <;> cases o2 <;> first
      | rfl
      | (rcases h with h | h <;> simp [isDict] at h)
  constructor
  · intro d hd
    rw [compare_objects.eq_def] at hd
    simp only [hmatch, List.append_nil, List.mem_append] at hd
    rcases hd with hd | hd
    · split at hd
      · simp at hd
      · simp only [List.mem_singleton] at hd
        subst hd
        exact ⟨rfl, rfl⟩
    · split at hd
      · simp at hd
      · simp only [List.mem_singleton] at hd
        subst hd
        exact ⟨rfl, rfl⟩
  · intro h1 h2
    rw [compare_objects.eq_def]
    rw [pyKeys_eq_nil h1, pyKeys_eq_nil h2]
    simp only [List.filter_nil, if_pos rfl, List.nil_append, List.append_nil]
    exact hmatch

/-- C2 (witness): the amended statement applied to an integer against a
string, both non-objects. -/
theorem compare_objects_non_object_amended_witness :
    compare_objects default_config (JsonValue.int 5) (JsonValue.str "x") ""
      = [] :=
  (compare_objects_non_object_amended default_config (JsonValue.int 5)
    (JsonValue.str "x") "" (Or.inl rfl)).2 rfl rfl

/-- C3 (counterexample): an int on the left and a float on the right — both
JSON Numbers — produce a TypeMismatch record, refuting the claim that the
comparison distinguishes only the six JsonValue tags and that two Numbers
never produce a TypeMismatch. -/
theorem number_tags_counterexample :
    compare_objects default_config
        (JsonValue.dict [("n", JsonValue.int 1)])
        (JsonValue.dict [("n", JsonValue.float 1)]) "" =
      [DiffRecord.typeMismatch "n" "int" "float"] := by
  rw [compare_objects_single_key]
  rw [compare_value_type_mismatch default_config (JsonValue.int 1)
    (JsonValue.float 1) "n" (pathJoin "" "n") (by decide) (by decide)]
  simp [pathJoin, typeName]

/-- C3 (amended): for a common non-ignored key holding scalar leaves on both
sides, a TypeMismatch record is emitted at the key path if and only if the
two Python runtime type names differ; the seven runtime tags NoneType, bool,
int, float, str, list, dict are compared, so an int and a float differ. -/
theorem scalar_type_tags_amended (cfg : ComparisonConfig)
    (k path : String) (v1 v2 : JsonValue)
    (hk : k ∉ cfg.ignoredKeys)
    (h1 : isScalar v1 = true) (h2 : isScalar v2 = true) :
    (DiffRecord.typeMismatch (pathJoin path k) (typeName v1) (typeName v2) ∈
        compare_objects cfg (JsonValue.dict [(k, v1)])
          (JsonValue.dict [(k, v2)]) path) ↔
      typeName v1 ≠ typeName v2 := by
  rw [compare_objects_single_key]
  by_cases ht : typeName v1 = typeName v2
  · rw [compare_value_same_type cfg v1 v2 k (pathJoin path k) hk ht]
    simp only [ht, ne_eq, not_true_eq_false, iff_false]
    intro hmem
    rw [compare_same_type.eq_def] at hmem
    split at hmem
    · simp [isScalar, isDict] at h1
    · simp [isScalar, isList] at h1
    · split at hmem <;> simp at hmem
  · rw [compare_value_type_mismatch cfg v1 v2 k (pathJoin path k) hk ht]
    simp [ht]

/-- C3 (witness): the amended statement applied to the int and float 1. -/
theorem scalar_type_tags_amended_witness :
    DiffRecord.typeMismatch (pathJoin "" "n") (typeName (JsonValue.int 1))
        (typeName (JsonValue.float 1)) ∈
      compare_objects default_config (JsonValue.dict [("n", JsonValue.int 1)])
        (JsonValue.dict [("n", JsonValue.float 1)]) "" :=
  (scalar_type_tags_amended default_config "n" "" (JsonValue.int 1)
    (JsonValue.float 1) (by decide) rfl rfl).mpr (by decide)

/-- C9: a key in config.ignoredKeys that is present in only one of the two
objects still appears in the key list of the emitted KeyOnlyInLeft or
KeyOnlyInRight record; ignored-key suppression applies only to the
common-key loop. -/
theorem ignored_keys_still_reported_missing (cfg : ComparisonConfig)
    (k path : String) (o1 o2 : JsonValue)
    (hk : k ∈ cfg.ignoredKeys) :
    (k ∈ pyKeys o1 → k ∉ pyKeys o2 →
      DiffRecord.keyOnlyInLeft path
          (pySorted ((pyKeys o1).filter (fun x => !(decide (x ∈ pyKeys o2))))) ∈
        compare_objects cfg o1 o2 path ∧
      k ∈ pySorted ((pyKeys o1).filter (fun x => !(decide (x ∈ pyKeys o2))))) ∧
    (k ∈ pyKeys o2 → k ∉ pyKeys o1 →
      DiffRecord.keyOnlyInRight path
          (pySorted ((pyKeys o2).filter (fun x => !(decide (x ∈ pyKeys o1))))) ∈
        compare_objects cfg o1 o2 path ∧
      k ∈ pySorted ((pyKeys o2).filter (fun x => !(decide (x ∈ pyKeys o1))))) := by
  constructor
  · intro h1 h2
    have hne : (pyKeys o1).filter (fun x => !(decide (x ∈ pyKeys o2))) ≠ [] := by
      apply List.ne_nil_of_mem (a := k)
      rw [List.mem_filter]
      exact ⟨h1, by simp [h2]⟩
    constructor
    · rw [compare_objects.eq_def]
      simp only [List.mem_append]
      left; left
      rw [if_neg hne]
      simp
    · rw [mem_pySorted, List.mem_filter]
      exact ⟨h1, by simp [h2]⟩
  · intro h1 h2
    have hne : (pyKeys o2).filter (fun x => !(decide (x ∈ pyKeys o1))) ≠ [] := by
      apply List.ne_nil_of_mem (a := k)
      rw [List.mem_filter]
      exact ⟨h1, by simp [h2]⟩
    constructor
    · rw [compare_objects.eq_def]
      simp only [List.mem_append]
      left; right
      rw [if_neg hne]
      simp
    · rw [mem_pySorted, List.mem_filter]
      exact ⟨h1, by simp [h2]⟩

/-- C9 (witness): the ignored key published, present only on the left, is
reported in the KeyOnlyInLeft record. -/
theorem ignored_keys_still_reported_missing_witness :
    DiffRecord.keyOnlyInLeft ""
        (pySorted ((pyKeys (JsonValue.dict [("published", JsonValue.int 1)])).filter
          (fun x => !(decide (x ∈ pyKeys (JsonValue.dict [])))))) ∈
      compare_objects default_config
        (JsonValue.dict [("published", JsonValue.int 1)])
        (JsonValue.dict []) "" ∧
    "published" ∈ pySorted ((pyKeys (JsonValue.dict [("published", JsonValue.int 1)])).filter
      (fun x => !(decide (x ∈ pyKeys (JsonValue.dict []))))) :=
  (ignored_keys_still_reported_missing default_config "published" ""
    (JsonValue.dict [("published", JsonValue.int 1)]) (JsonValue.dict [])
    (by decide)).1 (by decide) (by decide)

/-- C10: a value-exempt key whose two values are both objects is still
recursed into at the extended path, and one whose two values are both
arrays is still length-compared and first-element-sampled — the exemption
does not silence structured values. -/
theorem exempt_key_structured_values_still_compared (path k : String)
    (g1 g2 e1 e2 : List (String × JsonValue)) (s1 s2 : List JsonValue)
    (hk : k ∈ default_config.valueExemptKeys) :
    (compare_objects default_config
        (JsonValue.dict [(k, JsonValue.dict g1)])
        (JsonValue.dict [(k, JsonValue.dict g2)]) path =
      compare_objects default_config (JsonValue.dict g1) (JsonValue.dict g2)
        (pathJoin path k)) ∧
    (compare_objects default_config
        (JsonValue.dict [(k, JsonValue.list (JsonValue.dict e1 :: s1))])
        (JsonValue.dict [(k, JsonValue.list (JsonValue.dict e2 :: s2))])
        path =
      (if (JsonValue.dict e1 :: s1).length ≠ (JsonValue.dict e2 :: s2).length
       then [DiffRecord.lengthMismatch (pathJoin path k)
              (JsonValue.dict e1 :: s1).length
              (JsonValue.dict e2 :: s2).length]
       else []) ++
      compare_objects default_config (JsonValue.dict e1) (JsonValue.dict e2)
        (pathJoin path k ++ "[0]")) := by
  obtain ⟨hki, hkne⟩ := default_exempt_props hk
  constructor
  · rw [compare_objects_single_key,
      compare_value_same_type default_config (JsonValue.dict g1)
        (JsonValue.dict g2) k (pathJoin path k) hki rfl,
      compare_same_type.eq_def]
  · rw [compare_objects_single_key,
      compare_value_same_type default_config
        (JsonValue.list (JsonValue.dict e1 :: s1))
        (JsonValue.list (JsonValue.dict e2 :: s2)) k (pathJoin path k) hki
        rfl,
      compare_same_type.eq_def]

/-- C10 (witness): the exempt key id with object values on both sides is
still compared structurally. -/
theorem exempt_key_structured_values_still_compared_witness :
    compare_objects default_config
        (JsonValue.dict [("id", JsonValue.dict [("x", JsonValue.int 1)])])
        (JsonValue.dict [("id", JsonValue.dict [("x", JsonValue.int 2)])])
        "" =
      compare_objects default_config
        (JsonValue.dict [("x", JsonValue.int 1)])
        (JsonValue.dict [("x", JsonValue.int 2)]) (pathJoin "" "id") :=
  (exempt_key_structured_values_still_compared "" "id"
    [("x", JsonValue.int 1)] [("x", JsonValue.int 2)] [] [] [] []
    (by decide)).1

/-- C6: for a common key in the default value-exempt list, two values of the
same runtime type never yield a ValueMismatch record at the key path, while
two values of different runtime types still yield the TypeMismatch record
there. -/
theorem value_exempt_keys_behavior (path k : String) (v1 v2 : JsonValue)
    (hk : k ∈ default_config.valueExemptKeys) :
    (typeName v1 = typeName v2 →
      ∀ a b, DiffRecord.valueMismatch (pathJoin path k) a b ∉
        compare_objects default_config (JsonValue.dict [(k, v1)])
          (JsonValue.dict [(k, v2)]) path) ∧
    (typeName v1 ≠ typeName v2 →
      compare_objects default_config (JsonValue.dict [(k, v1)])
          (JsonValue.dict [(k, v2)]) path =
        [DiffRecord.typeMismatch (pathJoin path k) (typeName v1)
          (typeName v2)]) := by
  obtain ⟨hki, hkne⟩ := default_exempt_props hk
  constructor
  · intro ht a b hmem
    rw [compare_objects_single_key,
      compare_value_same_type default_config v1 v2 k (pathJoin path k) hki ht,
      compare_same_type.eq_def] at hmem
    split at hmem
    · have hdeep := compare_objects_deeper default_config _ _
        (pathJoin path k) _ hmem (pathJoin path k) rfl
      unfold afterPath at hdeep
      rcases hdeep with hlt | ⟨hq, _⟩
      · omega
      · exact pathJoin_ne_empty hkne hq
    · rcases List.mem_append.mp hmem with hm | hm
      · split at hm <;> simp at hm
      · split at hm
        · have hdeep := compare_objects_deeper default_config _ _
            (pathJoin path k ++ "[0]") _ hm (pathJoin path k) rfl
          have := afterPath_bracket _ _ hdeep
          omega
        · simp at hm
    · simp [hk] at hmem
  · intro ht
    rw [compare_objects_single_key,
      compare_value_type_mismatch default_config v1 v2 k (pathJoin path k)
        hki ht]

/-- C6 (witness): differing title strings of the same type produce no
ValueMismatch at the key path. -/
theorem value_exempt_keys_behavior_witness :
    DiffRecord.valueMismatch (pathJoin "" "title") (JsonValue.str "Hello")
        (JsonValue.str "World") ∉
      compare_objects default_config
        (JsonValue.dict [("title", JsonValue.str "Hello")])
        (JsonValue.dict [("title", JsonValue.str "World")]) "" :=
  (value_exempt_keys_behavior "" "title" (JsonValue.str "Hello")
    (JsonValue.str "World") (by decide)).1 rfl (JsonValue.str "Hello")
    (JsonValue.str "World")

/-- C4: for a common non-ignored key holding arrays of different lengths
whose first elements are both objects, the comparison emits exactly one
LengthMismatch at the key path with both lengths and recurses into the two
first elements at the bracketed path; the array tails influence nothing but
the reported lengths, and a non-object first element on either side
suppresses the recursion. -/
theorem array_sampling_policy (cfg : ComparisonConfig) (path k : String)
    (e1 e2 : List (String × JsonValue)) (t1 t2 : List JsonValue)
    (hk : k ∉ cfg.ignoredKeys)
    (hlen : (JsonValue.dict e1 :: t1).length ≠
      (JsonValue.dict e2 :: t2).length) :
    (compare_objects cfg
        (JsonValue.dict [(k, JsonValue.list (JsonValue.dict e1 :: t1))])
        (JsonValue.dict [(k, JsonValue.list (JsonValue.dict e2 :: t2))])
        path =
      DiffRecord.lengthMismatch (pathJoin path k)
          (JsonValue.dict e1 :: t1).length
          (JsonValue.dict e2 :: t2).length ::
        compare_objects cfg (JsonValue.dict e1) (JsonValue.dict e2)
          (pathJoin path k ++ "[0]")) ∧
    List.countP (isLengthMismatchAt (pathJoin path k))
      (compare_objects cfg
        (JsonValue.dict [(k, JsonValue.list (JsonValue.dict e1 :: t1))])
        (JsonValue.dict [(k, JsonValue.list (JsonValue.dict e2 :: t2))])
        path) = 1 ∧
    (∀ (x y : JsonValue) (s1 s2 : List JsonValue),
      isDict x = false ∨ isDict y = false →
      compare_objects cfg (JsonValue.dict [(k, JsonValue.list (x :: s1))])
        (JsonValue.dict [(k, JsonValue.list (y :: s2))]) path =
      (if (x :: s1).length ≠ (y :: s2).length
       then [DiffRecord.lengthMismatch (pathJoin path k) (x :: s1).length
              (y :: s2).length]
       else [])) := by
  have hmain : compare_objects cfg
      (JsonValue.dict [(k, JsonValue.list (JsonValue.dict e1 :: t1))])
      (JsonValue.dict [(k, JsonValue.list (JsonValue.dict e2 :: t2))])
      path =
      DiffRecord.lengthMismatch (pathJoin path k)
          (JsonValue.dict e1 :: t1).length
          (JsonValue.dict e2 :: t2).length ::
        compare_objects cfg (JsonValue.dict e1) (JsonValue.dict e2)
          (pathJoin path k ++ "[0]") := by
    rw [compare_objects_single_key,
      compare_value_same_type cfg (JsonValue.list (JsonValue.dict e1 :: t1))
        (JsonValue.list (JsonValue.dict e2 :: t2)) k (pathJoin path k) hk
        rfl,
      compare_same_type.eq_def]
    simp [hlen]
    have hlen2 : ¬ (t1.length = t2.length) := by
      simp only [List.length_cons] at hlen
      omega
    rw [if_neg hlen2, List.singleton_append]
  refine ⟨hmain, ?_, ?_⟩
  · rw [hmain, List.countP_cons]
    have hone : isLengthMismatchAt (pathJoin path k)
        (DiffRecord.lengthMismatch (pathJoin path k)
          (JsonValue.dict e1 :: t1).length
          (JsonValue.dict e2 :: t2).length) = true := by
      simp [isLengthMismatchAt]
    rw [hone]
    have hzero : List.countP (isLengthMismatchAt (pathJoin path k))
        (compare_objects cfg (JsonValue.dict e1) (JsonValue.dict e2)
          (pathJoin path k ++ "[0]")) = 0 := by
      rw [List.countP_eq_zero]
      intro d hd hcontra
      cases d with
      | keyOnlyInLeft p ks => simp [isLengthMismatchAt] at hcontra
      | keyOnlyInRight p ks => simp [isLengthMismatchAt] at hcontra
      | typeMismatch p a b => simp [isLengthMismatchAt] at hcontra
      | valueMismatch p a b => simp [isLengthMismatchAt] at hcontra
      | lengthMismatch p a b =>
        simp only [isLengthMismatchAt, decide_eq_true_eq] at hcontra
        subst hcontra
        have hdeep := compare_objects_deeper cfg (JsonValue.dict e1)
          (JsonValue.dict e2) (pathJoin path k ++ "[0]") _ hd
          (pathJoin path k) rfl
        have := afterPath_bracket _ _ hdeep
        omega
    rw [hzero]
    simp
  · intro x y s1 s2 hxy
    rw [compare_objects_single_key,
      compare_value_same_type cfg (JsonValue.list (x :: s1))
        (JsonValue.list (y :: s2)) k (pathJoin path k) hk rfl,
      compare_same_type.eq_def]
    have hm : (match x :: s1, y :: s2 with
        | JsonValue.dict d1 :: _, JsonValue.dict d2 :: _ =>
            compare_objects cfg (JsonValue.dict d1) (JsonValue.dict d2)
              (pathJoin path k ++ "[0]")
        | _, _ => ([] : List DiffRecord)) = [] := by
      cases x <;> cases y <;> first
        | rfl
        | (rcases hxy with h | h <;> simp [isDict] at h)
    simp only [hm, List.append_nil]

/-- C4 (witness): the spec example, a one-element object array against a
two-element one. -/
theorem array_sampling_policy_witness :
    compare_objects default_config
        (JsonValue.dict [("items", JsonValue.list [JsonValue.dict []])])
        (JsonValue.dict [("items",
          JsonValue.list [JsonValue.dict [], JsonValue.dict []])]) "" =
      DiffRecord.lengthMismatch (pathJoin "" "items")
          (JsonValue.dict [] :: ([] : List JsonValue)).length
          (JsonValue.dict [] :: [JsonValue.dict []]).length ::
        compare_objects default_config (JsonValue.dict [])
          (JsonValue.dict []) (pathJoin "" "items" ++ "[0]") :=
  (array_sampling_policy default_config "" "items" [] [] []
    [JsonValue.dict []] (by decide) (by decide)).1

/-- C1 (counterexample): with insertion order b before a on both sides, the
two common keys are processed in that iteration order, so the emitted
records are not sorted lexicographically by key path, refuting the claim
that common keys are processed in lexicographically sorted order. -/
theorem common_keys_not_sorted_counterexample :
    compare_objects default_config
        (JsonValue.dict [("b", JsonValue.int 1), ("a", JsonValue.int 2)])
        (JsonValue.dict [("b", JsonValue.int 3), ("a", JsonValue.int 4)])
        "" =
      [DiffRecord.valueMismatch "b" (JsonValue.int 1) (JsonValue.int 3),
       DiffRecord.valueMismatch "a" (JsonValue.int 2) (JsonValue.int 4)] ∧
    ¬ List.Sorted (fun a b : String => a ≤ b)
        (List.map DiffRecord.path
          (compare_objects default_config
            (JsonValue.dict [("b", JsonValue.int 1), ("a", JsonValue.int 2)])
            (JsonValue.dict [("b", JsonValue.int 3), ("a", JsonValue.int 4)])
            "")) := by
  have h : compare_objects default_config
      (JsonValue.dict [("b", JsonValue.int 1), ("a", JsonValue.int 2)])
      (JsonValue.dict [("b", JsonValue.int 3), ("a", JsonValue.int 4)]) "" =
      [DiffRecord.valueMismatch "b" (JsonValue.int 1) (JsonValue.int 3),
       DiffRecord.valueMismatch "a" (JsonValue.int 2) (JsonValue.int 4)] := by
    simp [compare_objects.eq_def, compare_common.eq_def, compare_value.eq_def,
      compare_same_type.eq_def, commonKeys, pyKeys, pySorted, lookupField,
      pathJoin, compare_field_types, typeName, pyEq.eq_def, default_config,
      List.insertionSort]
  refine ⟨h, ?_⟩
  rw [h]
  intro hs
  simp only [List.map, DiffRecord.path] at hs
  rw [List.sorted_cons] at hs
  have hba := hs.1 "a" (by simp)
  have hab : ("a" : String) < "b" := by
    rw [String.lt_iff_toList_lt]
    decide
  exact absurd hba (not_le.mpr hab)

/-- C1 (amended): the output opens with the missing-key records (each a
KeyOnly record at the call path) and continues with the common-key loop
iterations concatenated in iteration order — the order in which the Python
set intersection is enumerated, modelled as the left insertion order, not a
lexicographically sorted order. -/
theorem key_only_first_then_iteration_order (cfg : ComparisonConfig)
    (f1 f2 : List (String × JsonValue)) (path : String) :
    compare_objects cfg (JsonValue.dict f1) (JsonValue.dict f2) path =
      missing_key_records (JsonValue.dict f1) (JsonValue.dict f2) path ++
        (commonKeys f1 f2).flatMap (loopBody cfg f1 f2 path) ∧
    (missing_key_records (JsonValue.dict f1) (JsonValue.dict f2) path).all
      (fun d => DiffRecord.isKeyOnly d &&
        decide (DiffRecord.path d = path)) = true := by
  constructor
  · conv_lhs => rw [compare_objects.eq_def]
    rw [← compare_common_eq_flatMap]
    rfl
  · rw [List.all_eq_true]
    intro d hd
    unfold missing_key_records at hd
    rcases List.mem_append.mp hd with h | h
    · split at h
      · simp at h
      · simp only [List.mem_singleton] at h
        subst h
        simp [DiffRecord.isKeyOnly, DiffRecord.path]
    · split at h
      · simp at h
      · simp only [List.mem_singleton] at h
        subst h
        simp [DiffRecord.isKeyOnly, DiffRecord.path]

/-- C7: totality: the comparison with its fallible subscripts made explicit
terminates with a result on every pair of inputs and every path; neither the
guarded first-element accesses nor the common-key lookups can raise. -/
theorem compare_objectsE_total (cfg : ComparisonConfig) (o1 o2 : JsonValue)
    (p : String) :
    ∃ ds, compare_objectsE cfg o1 o2 p = Except.ok ds :=
  compare_objectsE_total_aux (sizeOf o1 + sizeOf o2) cfg o1 o2 p le_rfl

/-- C8 (counterexample): a 51-character rendering produces a 53-character
preview, refuting the claim that the preview is at most 50 characters. -/
theorem sample_preview_length_counterexample :
    (sample_preview "aaaaaaaaaaaaaaaaaaaaaaaaaaaaaaaaaaaaaaaaaaaaaaaaaaa").length = 53 ∧
    ¬ ((sample_preview "aaaaaaaaaaaaaaaaaaaaaaaaaaaaaaaaaaaaaaaaaaaaaaaaaaa").length ≤ 50) := by
  decide

/-- C8 (amended): the preview is at most 53 characters: it equals the
rendering when the rendering has at most 50 characters, and otherwise is
the first 50 characters of the rendering followed by three dots, 53
characters in all. -/
theorem sample_preview_amended (s : String) :
    (sample_preview s).length ≤ 53 ∧
    (s.length ≤ 50 → sample_preview s = s) ∧
    (50 < s.length → sample_preview s = pySlice s 50 ++ "..." ∧
      (sample_preview s).length = 53) := by
  have h3 : ("..." : String).length = 3 := rfl
  refine ⟨?_, ?_, ?_⟩
  · unfold sample_preview
    split
    · rename_i h
      rw [String.length_append, pySlice_length h, h3]
    · rename_i h
      omega
  · intro hle
    unfold sample_preview
    rw [if_neg (by omega)]
  · intro hgt
    unfold sample_preview
    rw [if_pos hgt]
    exact ⟨rfl, by rw [String.length_append, pySlice_length hgt, h3]⟩

/-- C8 (witness): the amended statement applied to a short and a long
rendering. -/
theorem sample_preview_amended_witness :
    sample_preview "abc" = "abc" ∧
    (sample_preview "aaaaaaaaaaaaaaaaaaaaaaaaaaaaaaaaaaaaaaaaaaaaaaaaaaa").length = 53 :=
  ⟨(sample_preview_amended "abc").2.1 (by decide),
   ((sample_preview_amended "aaaaaaaaaaaaaaaaaaaaaaaaaaaaaaaaaaaaaaaaaaaaaaaaaaa").2.2 (by decide)).2⟩
